import Mathlib

/-!
Verification of the calendar aggregation and bucketing engine of a terminal
contribution-graph tool (single Rust source file, `src/main.rs`).

Calendar dates are embedded as day numbers (`Int`): the number of days since
1970-01-01 in the proleptic Gregorian calendar, exactly the value the `chrono`
library orders `NaiveDate` by. The civil-calendar conversions below are the
standard era-based algorithms; conversion of a local wall-clock instant to UTC
is embedded as subtraction of a fixed zone offset (daylight-saving transitions
are real-time environment behaviour, outside the embedding). Commit-timestamp
parsing (RFC 3339, a library call in the source) is kept as an abstract
parameter `parse : String → Option Int` of the counting functions: the claims
about commit counting quantify over every parser behaviour.
-/

/-- Proleptic Gregorian leap-year test, as `chrono` implements it. -/
def isLeap (y : Int) : Bool := (y % 4 == 0 && y % 100 != 0) || y % 400 == 0

/-- Number of days in month `m` of year `y` (month 1..12). -/
def daysInMonth (y m : Int) : Int :=
  if m = 2 then (if isLeap y then 29 else 28)
  else if m = 4 ∨ m = 6 ∨ m = 9 ∨ m = 11 then 30
  else 31

/-- Day number (days since 1970-01-01) of the civil date `y-m-d`.
Standard era-based civil-calendar algorithm. -/
def daysFromCivil (y0 m d : Int) : Int :=
  let y := if m ≤ 2 then y0 - 1 else y0
  let era := y.fdiv 400
  let yoe := y - era * 400
  let doy := (153 * (m + (if m > 2 then -3 else 9)) + 2) / 5 + d - 1
  let doe := yoe * 365 + yoe / 4 - yoe / 100 + doy
  era * 146097 + doe - 719468

/-- A civil calendar date: year, month (1..12), day of month. -/
structure CivilDate where
  year : Int
  month : Int
  day : Int
deriving Repr, DecidableEq

/-- Civil date of a day number; inverse of `daysFromCivil`. -/
def civilFromDays (z0 : Int) : CivilDate :=
  let z := z0 + 719468
  let era := z.fdiv 146097
  let doe := z - era * 146097
  let yoe := (doe - doe / 1460 + doe / 36524 - doe / 146096) / 365
  let y := yoe + era * 400
  let doy := doe - (365 * yoe + yoe / 4 - yoe / 100)
  let mp := (5 * doy + 2) / 153
  let d := doy - (153 * mp + 2) / 5 + 1
  let m := mp + (if mp < 10 then 3 else -9)
  { year := y + (if m ≤ 2 then 1 else 0), month := m, day := d }

/-- Monday-based weekday index of a day number: `chrono`
`weekday().num_days_from_monday()`. Day 0 (1970-01-01) is a Thursday. -/
def numDaysFromMonday (z : Int) : Int := (z + 3) % 7

/-- Split a character list at every dash. -/
def splitOnDash : List Char → List (List Char)
  | [] => [[]]
  | c :: rest =>
    let r := splitOnDash rest
    if c = '-' then [] :: r
    else
      match r with
      | [] => [[c]]
      | g :: gs => (c :: g) :: gs

/-- Read a non-empty all-digit character list as a number. -/
def digitsToNat? (cs : List Char) : Option Nat :=
  if cs.isEmpty then none
  else
    cs.foldl (fun acc c =>
      match acc with
      | none => none
      | some n => if c.isDigit then some (n * 10 + (c.toNat - 48)) else none)
      (some 0)

/-- `NaiveDate::parse_from_str(s, "%Y-%m-%d")`: split on the dashes, read the
numeric fields, validate month and day-of-month ranges; the result is the day
number of the parsed date. A leading dash denotes a negative year. -/
def parseDate (s : String) : Option Int :=
  let fields :=
    match splitOnDash s.toList with
    | [[], ys, ms, ds] => some ((-1 : Int), ys, ms, ds)
    | [ys, ms, ds] => some ((1 : Int), ys, ms, ds)
    | _ => none
  match fields with
  | none => none
  | some (sign, ys, ms, ds) =>
    match digitsToNat? ys, digitsToNat? ms, digitsToNat? ds with
    | some y, some m, some d =>
      let y : Int := sign * y
      let m : Int := m
      let d : Int := d
      if 1 ≤ m ∧ m ≤ 12 ∧ 1 ≤ d ∧ d ≤ daysInMonth y m then
        some (daysFromCivil y m d)
      else none
    | _, _, _ => none

/-- The date with day-of-month forced to 1: `today.with_day(1)`. -/
def monthStartOf (z : Int) : Int :=
  let c := civilFromDays z
  daysFromCivil c.year c.month 1

/-- The date with day-of-year forced to 1: `today.with_ordinal(1)`. -/
def yearStartOf (z : Int) : Int :=
  let c := civilFromDays z
  daysFromCivil c.year 1 1

/-! ## Calendar Grid Builder (`get_data_from_graphql`, grid part) -/

/-- A raw per-day record from the activity API: date string, contribution
count, categorical intensity label. -/
structure GraphQLDay where
  date : String
  contributionCount : Nat
  contributionLevel : String
deriving Repr, DecidableEq

/-- A day cell of the built grid. -/
structure Day where
  date : String
  count : Nat
  level : Nat
deriving Repr, DecidableEq

/-- The `match graphql_day.contribution_level.as_str()` table: the five known
labels map to 0..4, anything else to 0. The Rust string match is a sequential
comparison against the literals. -/
def levelOfLabel (s : String) : Nat :=
  if s = "NONE" then 0
  else if s = "FIRST_QUARTILE" then 1
  else if s = "SECOND_QUARTILE" then 2
  else if s = "THIRD_QUARTILE" then 3
  else if s = "FOURTH_QUARTILE" then 4
  else 0

/-- One raw record becomes one day cell: date moved verbatim, count passed
through, level mapped by the table. -/
def dayOfRaw (g : GraphQLDay) : Day :=
  { date := g.date, count := g.contributionCount, level := levelOfLabel g.contributionLevel }

/-- The grid-building loop of `get_data_from_graphql`: for every week, for
every day record, push the converted cell. Pushing every element of a list in
order is `List.map`. -/
def buildGrid (weeks : List (List GraphQLDay)) : List (List Day) :=
  weeks.map (fun w => w.map dayOfRaw)

/-! ## Date Bucketer (`display_contribution_graph`, aggregate part) -/

/-- The five aggregates computed under the printed grid. -/
structure BucketStats where
  today : Nat
  thisWeek : Nat
  lastWeek : Nat
  thisMonth : Nat
  thisYear : Nat
deriving Repr, DecidableEq

/-- The aggregate pass of `display_contribution_graph`: boundaries are
computed once from the local date `today`, then the two nested loops fold the
five mutable counters over every day cell. Unparseable dates are skipped. -/
def displayAggregates (grid : List (List Day)) (today : Int) : BucketStats :=
  let thisWeekStart := today - numDaysFromMonday today
  let lastWeekStart := thisWeekStart - 7
  let lastWeekEnd := thisWeekStart - 1
  let thisMonthStart := monthStartOf today
  let thisYearStart := yearStartOf today
  grid.foldl (fun acc week =>
    week.foldl (fun acc day =>
      match parseDate day.date with
      | none => acc
      | some d =>
        let acc := if d = today then { acc with today := day.count } else acc
        let acc := if thisWeekStart ≤ d then { acc with thisWeek := acc.thisWeek + day.count } else acc
        let acc := if lastWeekStart ≤ d ∧ d ≤ lastWeekEnd then { acc with lastWeek := acc.lastWeek + day.count } else acc
        let acc := if thisMonthStart ≤ d then { acc with thisMonth := acc.thisMonth + day.count } else acc
        if thisYearStart ≤ d then { acc with thisYear := acc.thisYear + day.count } else acc)
      acc)
    ⟨0, 0, 0, 0, 0⟩

/-- The per-cell update exactly as the specification words it: window bounds
written out from the spec formulas (week start is today minus the Monday-based
weekday index, last week is the 7 days before that, month and year starts force
day-of-month and day-of-year to 1), today matched by equality with
last-match-wins assignment. Stated separately from `displayAggregates` so the
spec text can be compared against the source embedding. -/
def bucketDaySpec (today : Int) (acc : BucketStats) (day : Day) : BucketStats :=
  match parseDate day.date with
  | none => acc
  | some d =>
    let weekStart := today - numDaysFromMonday today
    let lastWeekStart := weekStart - 7
    let lastWeekEnd := weekStart - 1
    let monthStart := monthStartOf today
    let yearStart := yearStartOf today
    let acc := if d = today then { acc with today := day.count } else acc
    let acc := if weekStart ≤ d then { acc with thisWeek := acc.thisWeek + day.count } else acc
    let acc := if lastWeekStart ≤ d ∧ d ≤ lastWeekEnd then { acc with lastWeek := acc.lastWeek + day.count } else acc
    let acc := if monthStart ≤ d then { acc with thisMonth := acc.thisMonth + day.count } else acc
    if yearStart ≤ d then { acc with thisYear := acc.thisYear + day.count } else acc

/-! ## Month-Label Aligner (`display_contribution_graph`, header part) -/

/-- The fixed month-abbreviation table. -/
def months : List String :=
  ["Jan", "Feb", "Mar", "Apr", "May", "Jun", "Jul", "Aug", "Sep", "Oct", "Nov", "Dec"]

/-- The header loop: when the grid has at least one week, emit twelve labels
rotated so that the list starts the month after the current one; with zero
weeks nothing is emitted. -/
def monthLabels (totalWeeks : Nat) (currentMonth0 : Nat) : List String :=
  if totalWeeks > 0 then
    let startMonth := (currentMonth0 + 1) % 12
    (List.range 12).map (fun i => months.getD ((startMonth + i) % 12) "")
  else []

/-! ## Commit records and the author filter (`get_commits_with_dates`) -/

/-- The platform author object of a commit JSON record: `author.login`.
`none` for the login covers both an absent field and a non-string value. -/
structure Author where
  login : Option String
deriving Repr, DecidableEq

/-- The Git author object inside the commit detail: `commit.author`. -/
structure GitAuthor where
  name : Option String
  email : Option String
  date : Option String
deriving Repr, DecidableEq

/-- The commit detail object: `commit.commit`. -/
structure CommitDetail where
  author : Option GitAuthor
deriving Repr, DecidableEq

/-- A commit JSON record, with the two fields the source reads: the platform
author (attribution) and the commit detail (free-text Git author and the
authoring timestamp string). -/
structure Commit where
  author : Option Author
  commit : Option CommitDetail
deriving Repr, DecidableEq

/-- The filter closure of `get_commits_with_dates`: keep a commit only when
`commit.author.login` is present and equals the configured username. -/
def commitMatchesUser (username : String) (c : Commit) : Bool :=
  match c.author with
  | some a =>
    match a.login with
    | some l => l == username
    | none => false
  | none => false

/-- The authoring-timestamp string of a commit:
`commit.get("commit").and_then(author).and_then(date)`. -/
def commitDateString (c : Commit) : Option String :=
  (c.commit.bind CommitDetail.author).bind GitAuthor.date

/-! ## Pagination loop (`get_commits_with_dates`) -/

/-- Outcome of one page request, as the source distinguishes them: transport
error (break), non-success HTTP status (break), body that fails to parse as a
commit array (propagates as the Err of the whole call), or a parsed page. -/
inductive PageResp where
  | transportErr : PageResp
  | httpFail : PageResp
  | parseFail : PageResp
  | okPage : List Commit → PageResp

/-- The paging loop. The source starts at `page = 1`, increments after each
successful non-empty page and breaks once `page > 5`, so it visits at most the
pages `[1, 2, 3, 4, 5]` in order; the loop is embedded as structural recursion
over that page list, with the same early exits. The second component counts
how many page requests were issued. -/
def fetchGo (fetch : Nat → PageResp) (username : String) :
    List Nat → List Commit → Except Unit (List Commit) × Nat
  | [], acc => (Except.ok acc, 0)
  | page :: rest, acc =>
    match fetch page with
    | PageResp.transportErr => (Except.ok acc, 1)
    | PageResp.httpFail => (Except.ok acc, 1)
    | PageResp.parseFail => (Except.error (), 1)
    | PageResp.okPage commits =>
      if commits.isEmpty then (Except.ok acc, 1)
      else
        let userCommits := commits.filter (commitMatchesUser username)
        let r := fetchGo fetch username rest (acc ++ userCommits)
        (r.1, r.2 + 1)

/-- `get_commits_with_dates`: run the paging loop from page 1 with an empty
accumulator. -/
def getCommitsWithDates (fetch : Nat → PageResp) (username : String) :
    Except Unit (List Commit) :=
  (fetchGo fetch username [1, 2, 3, 4, 5] []).1

/-- Number of page requests the loop issues against a given collaborator. -/
def numRequests (fetch : Nat → PageResp) (username : String) : Nat :=
  (fetchGo fetch username [1, 2, 3, 4, 5] []).2

/-! ## Commit bucket counting (`get_all_commit_counts`) -/

/-- One iteration of the counting loop: parse the authoring timestamp; when it
parses, bump the today counter if the instant lies in [todayStart, todayEnd]
and the week counter if it lies in [weekStart, todayEnd]; when the timestamp
is absent or unparseable the counters are untouched. -/
def countStep (parse : String → Option Int) (todayStart todayEnd weekStart : Int)
    (acc : Nat × Nat) (c : Commit) : Nat × Nat :=
  match (commitDateString c).bind parse with
  | some d =>
    let t := if todayStart ≤ d ∧ d ≤ todayEnd then acc.1 + 1 else acc.1
    let w := if weekStart ≤ d ∧ d ≤ todayEnd then acc.2 + 1 else acc.2
    (t, w)
  | none => acc

/-- Does the commit carry a parseable authoring timestamp? -/
def hasTimestamp (parse : String → Option Int) (c : Commit) : Bool :=
  ((commitDateString c).bind parse).isSome

/-- The counting part of `get_all_commit_counts`, over an already fetched and
author-filtered commit list: the month count is the list length, the today and
week counts come from the classification loop. -/
def getAllCommitCountsCore (parse : String → Option Int)
    (todayStart todayEnd weekStart : Int) (commits : List Commit) :
    Nat × Nat × Nat :=
  let tw := commits.foldl (countStep parse todayStart todayEnd weekStart) (0, 0)
  (tw.1, tw.2, commits.length)

/-- UTC instant (in seconds) of local midnight of a day number, for a zone at
a fixed offset `tzOff` seconds east of UTC. -/
def localMidnightUTC (tzOff day : Int) : Int := day * 86400 - tzOff

/-- `get_all_commit_counts` boundary derivation plus counting: today runs from
local midnight to local 23:59:59, the week from local midnight of the Monday
of the current week, all converted to UTC instants. -/
def getAllCommitCounts (parse : String → Option Int) (tzOff today : Int)
    (commits : List Commit) : Nat × Nat × Nat :=
  let todayStart := localMidnightUTC tzOff today
  let todayEnd := localMidnightUTC tzOff today + 86399
  let weekStart := localMidnightUTC tzOff (today - numDaysFromMonday today)
  getAllCommitCountsCore parse todayStart todayEnd weekStart commits

/-! ## Per-repository aggregation loop (`get_data_from_graphql`, repo part) -/

/-- A raw repository descriptor from the activity API. -/
structure Repo where
  name : String
  pushedAt : String
  ownerLogin : String
deriving Repr, DecidableEq

/-- `format!("{}/{}", repo.owner.login, repo.name)`. -/
def fullName (r : Repo) : String := r.ownerLogin ++ "/" ++ r.name

/-- A repository activity record of the report. -/
structure RepositoryWithCommits where
  name : String
  fullName : String
  pushedAt : String
  todayCommits : Nat
  weekCommits : Nat
  monthCommits : Nat
deriving Repr, DecidableEq

/-- `.unwrap_or((0, 0, 0))`: absorb any aggregation failure into zero counts. -/
def unwrapCounts {ε : Type} : Except ε (Nat × Nat × Nat) → Nat × Nat × Nat
  | Except.ok c => c
  | Except.error _ => (0, 0, 0)

/-- Build the record for one repository from its descriptor and the absorbed
aggregation outcome. -/
def mkRepoEntry (r : Repo) (c : Nat × Nat × Nat) : RepositoryWithCommits :=
  { name := r.name, fullName := fullName r, pushedAt := r.pushedAt,
    todayCommits := c.1, weekCommits := c.2.1, monthCommits := c.2.2 }

/-- The per-repository loop of `get_data_from_graphql`: for each repository,
aggregate its commits, absorb any failure into (0, 0, 0), and push the record.
The aggregation outcome for each repository is abstracted as a function of its
full name. -/
def aggregateRepos {ε : Type} (fetchCounts : String → Except ε (Nat × Nat × Nat))
    (repos : List Repo) : List RepositoryWithCommits :=
  repos.foldl (fun acc repo =>
    acc ++ [mkRepoEntry repo (unwrapCounts (fetchCounts (fullName repo)))]) []

/-! ## Helper lemmas -/

theorem foldl_over_flatten {α β : Type} (f : β → α → β) :
    ∀ (L : List (List α)) (b : β),
    L.foldl (fun acc l => l.foldl f acc) b = L.flatten.foldl f b := by
  intro L
  induction L with
  | nil => intro b; rfl
  | cons w ws ih =>
    intro b
    simp only [List.foldl_cons, List.flatten_cons, List.foldl_append, ih]

theorem numDaysFromMonday_nonneg (z : Int) : 0 ≤ numDaysFromMonday z := by
  unfold numDaysFromMonday
  exact Int.emod_nonneg _ (by norm_num)

theorem numDaysFromMonday_lt_seven (z : Int) : numDaysFromMonday z < 7 := by
  unfold numDaysFromMonday
  exact Int.emod_lt_of_pos _ (by norm_num)

/-! ## Claim theorems -/

/-- C1 (Date Bucketer): the aggregate pass of `display_contribution_graph` is
exactly a single left fold of the per-cell update described by the spec over
every day cell of the grid in order, with week, last-week, month and year
windows derived from the local date `today` by the spec formulas. -/
theorem date_bucketer_single_pass (grid : List (List Day)) (today : Int) :
    displayAggregates grid today =
      grid.flatten.foldl (bucketDaySpec today) ⟨0, 0, 0, 0, 0⟩ := by
  rw [← foldl_over_flatten (bucketDaySpec today) grid ⟨0, 0, 0, 0, 0⟩]
  rfl

/-- C2 (Month-Label Aligner): with a non-empty grid the emitted header is the
twelve abbreviations `months[((m0 + 1) % 12 + i) % 12]` for `i` in `0..12`;
for January the literal sequence runs Feb through Jan; with zero weeks no
labels are emitted. -/
theorem month_label_rotation :
    (∀ (tW m0 : Nat), monthLabels (tW + 1) m0 =
      (List.range 12).map (fun i => months.getD (((m0 + 1) % 12 + i) % 12) "")) ∧
    monthLabels 52 0 =
      ["Feb", "Mar", "Apr", "May", "Jun", "Jul", "Aug", "Sep", "Oct", "Nov", "Dec", "Jan"] ∧
    (∀ m0 : Nat, monthLabels 0 m0 = []) := by
  refine ⟨fun tW m0 => ?_, by decide, fun m0 => rfl⟩
  simp [monthLabels]

/-- C9 (Week-window contiguity): for every local date, the last-week window
ends exactly one day before the this-week window starts, no date lies strictly
between the two windows, and no date belongs to both. -/
theorem week_windows_contiguous (today : Int) :
    (today - numDaysFromMonday today - 1) + 1 = today - numDaysFromMonday today ∧
    (∀ d : Int,
      ¬(today - numDaysFromMonday today - 1 < d ∧ d < today - numDaysFromMonday today)) ∧
    (∀ d : Int,
      ¬((today - numDaysFromMonday today ≤ d ∧ d ≤ today) ∧
        (today - numDaysFromMonday today - 7 ≤ d ∧
          d ≤ today - numDaysFromMonday today - 1))) := by
  have h0 : 0 ≤ numDaysFromMonday today := numDaysFromMonday_nonneg today
  exact ⟨by omega, fun d => by omega, fun d => by omega⟩

/-- C3 counterexample: a raw day record whose date string is unparseable is
not omitted from the built grid — `get_data_from_graphql` never parses dates
while building the grid, so the record is retained verbatim. -/
theorem malformed_date_kept_in_grid :
    parseDate "not-a-date" = none ∧
    buildGrid [[{ date := "not-a-date", contributionCount := 5, contributionLevel := "NONE" }]] =
      [[{ date := "not-a-date", count := 5, level := 0 }]] :=
  ⟨rfl, rfl⟩

/-- C3 amended: the grid builder keeps every raw record — the built grid has
one cell per record, in place, with the date string passed through verbatim —
and a cell whose date fails to parse is skipped by the aggregate pass (it
changes no counter), so the run continues instead of aborting. -/
theorem malformed_date_skipped_in_aggregation :
    (∀ (weeks : List (List GraphQLDay)),
      (buildGrid weeks).length = weeks.length ∧
      ∀ i : Nat, (buildGrid weeks).getD i [] = (weeks.getD i []).map dayOfRaw) ∧
    (∀ (g : GraphQLDay),
      (dayOfRaw g).date = g.date ∧ (dayOfRaw g).count = g.contributionCount) ∧
    (∀ (today : Int) (acc : BucketStats) (day : Day),
      parseDate day.date = none → bucketDaySpec today acc day = acc) := by
  refine ⟨fun weeks => ⟨by simp [buildGrid], fun i => ?_⟩, fun g => ⟨rfl, rfl⟩, ?_⟩
  · unfold buildGrid
    rcases Nat.lt_or_ge i weeks.length with hi | hi
    · rw [List.getD_eq_getElem _ _ (by simpa using hi), List.getD_eq_getElem _ _ hi]
      simp
    · rw [List.getD_eq_default _ _ (by simpa using hi), List.getD_eq_default _ _ hi]
      simp
  · intro today acc day hparse
    unfold bucketDaySpec
    rw [hparse]

theorem malformed_date_skipped_witness :
    bucketDaySpec 0 ⟨1, 2, 3, 4, 5⟩ { date := "not-a-date", count := 9, level := 0 } =
      ⟨1, 2, 3, 4, 5⟩ :=
  malformed_date_skipped_in_aggregation.2.2 0 ⟨1, 2, 3, 4, 5⟩
    { date := "not-a-date", count := 9, level := 0 } rfl

/-- C7 (Author filter): a commit passes the filter of `get_commits_with_dates`
exactly when its platform author login is present and equals the configured
username; a commit with no platform author is excluded; and the verdict
depends only on the platform author field, never on the commit detail that
holds the free-text Git author name and email. -/
theorem author_filter_platform_identity (u : String) (c c2 : Commit) :
    (commitMatchesUser u c = true ↔ ∃ a : Author, c.author = some a ∧ a.login = some u) ∧
    (c.author = none → commitMatchesUser u c = false) ∧
    (c.author = c2.author → commitMatchesUser u c = commitMatchesUser u c2) := by
  refine ⟨?_, fun h => ?_, fun h => ?_⟩
  · rcases c with ⟨a, cc⟩
    cases a with
    | none => unfold commitMatchesUser; simp
    | some a0 =>
      rcases a0 with ⟨l⟩
      cases l with
      | none => unfold commitMatchesUser; simp
      | some l0 =>
        unfold commitMatchesUser
        simp only [beq_iff_eq]
        constructor
        · intro hl
          exact ⟨⟨some l0⟩, rfl, by rw [hl]⟩
        · rintro ⟨a, ha, hl⟩
          injection ha with ha2
          rw [← ha2] at hl
          injection hl
  · unfold commitMatchesUser
    rw [h]
  · unfold commitMatchesUser
    rw [h]

theorem author_filter_witness :
    commitMatchesUser "alice" { author := none, commit := none } = false ∧
    commitMatchesUser "alice"
        { author := some { login := some "alice" }, commit := none } =
      commitMatchesUser "alice"
        { author := some { login := some "alice" },
          commit := some { author := some { name := some "n", email := some "e", date := some "d" } } } :=
  ⟨(author_filter_platform_identity "alice" { author := none, commit := none }
      { author := none, commit := none }).2.1 rfl,
   (author_filter_platform_identity "alice"
      { author := some { login := some "alice" }, commit := none }
      { author := some { login := some "alice" },
        commit := some { author := some { name := some "n", email := some "e", date := some "d" } } }).2.2 rfl⟩

/-- C8 (Intensity level mapping): the label table is total and deterministic —
the five known labels map to 0, 1, 2, 3, 4, every other label maps to 0 — the
resulting level never exceeds 4, and the level of a built day cell is a
function of the label alone, independent of the count. -/
theorem level_mapping_total (s : String) (g g2 : GraphQLDay) :
    levelOfLabel "NONE" = 0 ∧
    levelOfLabel "FIRST_QUARTILE" = 1 ∧
    levelOfLabel "SECOND_QUARTILE" = 2 ∧
    levelOfLabel "THIRD_QUARTILE" = 3 ∧
    levelOfLabel "FOURTH_QUARTILE" = 4 ∧
    (s ≠ "NONE" → s ≠ "FIRST_QUARTILE" → s ≠ "SECOND_QUARTILE" →
      s ≠ "THIRD_QUARTILE" → s ≠ "FOURTH_QUARTILE" → levelOfLabel s = 0) ∧
    levelOfLabel s ≤ 4 ∧
    (dayOfRaw g).level = levelOfLabel g.contributionLevel ∧
    (g.contributionLevel = g2.contributionLevel →
      (dayOfRaw g).level = (dayOfRaw g2).level) := by
  refine ⟨rfl, rfl, rfl, rfl, rfl, fun h1 h2 h3 h4 h5 => ?_, ?_, rfl, fun h => ?_⟩
  · simp [levelOfLabel, h1, h2, h3, h4, h5]
  · unfold levelOfLabel
    split_ifs <;> omega
  · simp [dayOfRaw, h]

theorem level_mapping_witness :
    levelOfLabel "SOMETHING_ELSE" = 0 ∧
    (dayOfRaw { date := "d", contributionCount := 7, contributionLevel := "NONE" }).level =
      (dayOfRaw { date := "d", contributionCount := 999, contributionLevel := "NONE" }).level :=
  ⟨(level_mapping_total "SOMETHING_ELSE"
      { date := "d", contributionCount := 7, contributionLevel := "NONE" }
      { date := "d", contributionCount := 999, contributionLevel := "NONE" }).2.2.2.2.2.1
      (by decide) (by decide) (by decide) (by decide) (by decide),
   (level_mapping_total "SOMETHING_ELSE"
      { date := "d", contributionCount := 7, contributionLevel := "NONE" }
      { date := "d", contributionCount := 999, contributionLevel := "NONE" }).2.2.2.2.2.2.2.2 rfl⟩

theorem foldl_push_eq_map {α β : Type} (f : α → β) :
    ∀ (l : List α) (acc : List β),
    l.foldl (fun a x => a ++ [f x]) acc = acc ++ l.map f := by
  intro l
  induction l with
  | nil => intro acc; simp
  | cons x xs ih => intro acc; simp [ih]

/-- C4 (Commit Aggregator failure isolation): the per-repository loop emits
one record per repository, each record determined only by the outcome of its
own aggregation, with a failed outcome absorbed into counts (0, 0, 0); the
loop itself never fails, so the run continues past any single failure. -/
theorem repo_failure_isolated (ε : Type) (fetchCounts : String → Except ε (Nat × Nat × Nat))
    (repos : List Repo) (e : ε) :
    aggregateRepos fetchCounts repos =
      repos.map (fun r => mkRepoEntry r (unwrapCounts (fetchCounts (fullName r)))) ∧
    (aggregateRepos fetchCounts repos).length = repos.length ∧
    unwrapCounts (Except.error e) = (0, 0, 0) := by
  have hmap : aggregateRepos fetchCounts repos =
      repos.map (fun r => mkRepoEntry r (unwrapCounts (fetchCounts (fullName r)))) := by
    unfold aggregateRepos
    simpa using
      foldl_push_eq_map (fun r => mkRepoEntry r (unwrapCounts (fetchCounts (fullName r)))) repos []
  exact ⟨hmap, by rw [hmap]; simp, rfl⟩

theorem fetchGo_requests_le (fetch : Nat → PageResp) (u : String) :
    ∀ (pages : List Nat) (acc : List Commit),
    (fetchGo fetch u pages acc).2 ≤ pages.length := by
  intro pages
  induction pages with
  | nil => intro acc; simp [fetchGo]
  | cons p rest ih =>
    intro acc
    unfold fetchGo
    cases fetch p with
    | transportErr => simp
    | httpFail => simp
    | parseFail => simp
    | okPage commits =>
      by_cases hne : commits.isEmpty
      · simp [hne]
      · have := ih (acc ++ commits.filter (commitMatchesUser u))
        simp only [hne, if_false, Bool.false_eq_true, List.length_cons]
        omega

/-- C5 (Pagination cap): against every collaborator behaviour the paging loop
of `get_commits_with_dates` issues at most five page requests; a first page
with zero records, a transport error, a non-success status or an unparseable
body each stop it after one request, and a collaborator that always returns a
full page is stopped by the cap at exactly five requests. -/
theorem pagination_cap (fetch : Nat → PageResp) (u : String) :
    numRequests fetch u ≤ 5 ∧
    numRequests (fun _ => PageResp.okPage []) u = 1 ∧
    numRequests (fun _ => PageResp.transportErr) u = 1 ∧
    numRequests (fun _ => PageResp.httpFail) u = 1 ∧
    numRequests (fun _ => PageResp.parseFail) u = 1 ∧
    numRequests (fun _ => PageResp.okPage [{ author := none, commit := none }]) u = 5 := by
  exact ⟨fetchGo_requests_le fetch u [1, 2, 3, 4, 5] [], rfl, rfl, rfl, rfl, rfl⟩

theorem foldl_filter_of_id {α β : Type} (f : β → α → β) (p : α → Bool)
    (hf : ∀ (b : β) (a : α), p a = false → f b a = b) :
    ∀ (l : List α) (b : β), l.foldl f b = (l.filter p).foldl f b := by
  intro l
  induction l with
  | nil => intro b; rfl
  | cons x xs ih =>
    intro b
    by_cases hx : p x = true
    · simp [List.filter_cons, hx, ih]
    · have hx0 : p x = false := by simpa using hx
      simp [List.filter_cons, hx0, hf b x hx0, ih]

theorem countStep_of_no_timestamp (parse : String → Option Int)
    (todayStart todayEnd weekStart : Int) (b : Nat × Nat) (c : Commit)
    (hc : hasTimestamp parse c = false) :
    countStep parse todayStart todayEnd weekStart b c = b := by
  unfold hasTimestamp at hc
  unfold countStep
  cases h2 : (commitDateString c).bind parse with
  | none => simp [h2]
  | some d => rw [h2] at hc; simp at hc

/-- C6 (Malformed commit timestamps): the month count is the full length of
the fetched-and-filtered commit list, commits whose timestamp is absent or
unparseable included; the today and week counts are unchanged when exactly
those commits are dropped, so they contribute to neither. -/
theorem month_count_includes_malformed (parse : String → Option Int)
    (todayStart todayEnd weekStart : Int) (commits : List Commit) :
    (getAllCommitCountsCore parse todayStart todayEnd weekStart commits).2.2 =
      commits.length ∧
    (getAllCommitCountsCore parse todayStart todayEnd weekStart commits).1 =
      (getAllCommitCountsCore parse todayStart todayEnd weekStart
        (commits.filter (hasTimestamp parse))).1 ∧
    (getAllCommitCountsCore parse todayStart todayEnd weekStart commits).2.1 =
      (getAllCommitCountsCore parse todayStart todayEnd weekStart
        (commits.filter (hasTimestamp parse))).2.1 := by
  have h := foldl_filter_of_id (countStep parse todayStart todayEnd weekStart)
    (hasTimestamp parse) (countStep_of_no_timestamp parse todayStart todayEnd weekStart)
    commits (0, 0)
  unfold getAllCommitCountsCore
  exact ⟨rfl, by rw [h], by rw [h]⟩

theorem countFold_fst_le_snd (parse : String → Option Int) (ts te ws : Int)
    (hws : ws ≤ ts) :
    ∀ (commits : List Commit) (acc : Nat × Nat), acc.1 ≤ acc.2 →
    (commits.foldl (countStep parse ts te ws) acc).1 ≤
      (commits.foldl (countStep parse ts te ws) acc).2 := by
  intro commits
  induction commits with
  | nil => intro acc h; simpa using h
  | cons c cs ih =>
    intro acc h
    simp only [List.foldl_cons]
    apply ih
    unfold countStep
    cases hm : (commitDateString c).bind parse with
    | none => exact h
    | some d =>
      dsimp only
      by_cases h1 : ts ≤ d ∧ d ≤ te
      · have h2 : ws ≤ d ∧ d ≤ te := ⟨le_trans hws h1.1, h1.2⟩
        rw [if_pos h1, if_pos h2]
        omega
      · rw [if_neg h1]
        by_cases h2 : ws ≤ d ∧ d ≤ te
        · rw [if_pos h2]
          omega
        · rw [if_neg h2]
          exact h

theorem countFold_snd_le (parse : String → Option Int) (ts te ws : Int) :
    ∀ (commits : List Commit) (acc : Nat × Nat),
    (commits.foldl (countStep parse ts te ws) acc).2 ≤ acc.2 + commits.length := by
  intro commits
  induction commits with
  | nil => intro acc; simp
  | cons c cs ih =>
    intro acc
    simp only [List.foldl_cons, List.length_cons]
    have hstep : (countStep parse ts te ws acc c).2 ≤ acc.2 + 1 := by
      unfold countStep
      cases hm : (commitDateString c).bind parse with
      | none => simp
      | some d =>
        by_cases h2 : ws ≤ d ∧ d ≤ te
        · simp [h2]
        · simp [h2]
    have := ih (countStep parse ts te ws acc c)
    omega

/-- C10 (Implicit bucket monotonicity): every aggregation result computed by
`get_all_commit_counts` from a fetched commit list satisfies today at most
week and week at most month — the today window sits inside the week window
because the Monday of the current week does not come after today, and both
bucket counts classify commits from the one list whose length is the month
count. -/
theorem bucket_monotonicity (parse : String → Option Int) (tzOff today : Int)
    (commits : List Commit) :
    (getAllCommitCounts parse tzOff today commits).1 ≤
      (getAllCommitCounts parse tzOff today commits).2.1 ∧
    (getAllCommitCounts parse tzOff today commits).2.1 ≤
      (getAllCommitCounts parse tzOff today commits).2.2 := by
  have hws : localMidnightUTC tzOff (today - numDaysFromMonday today) ≤
      localMidnightUTC tzOff today := by
    unfold localMidnightUTC
    have h0 := numDaysFromMonday_nonneg today
    have hmul : (today - numDaysFromMonday today) * 86400 ≤ today * 86400 :=
      mul_le_mul_of_nonneg_right (by omega) (by norm_num)
    omega
  unfold getAllCommitCounts getAllCommitCountsCore
  constructor
  · exact countFold_fst_le_snd parse _ _ _ hws commits (0, 0) (le_refl 0)
  · have := countFold_snd_le parse (localMidnightUTC tzOff today)
      (localMidnightUTC tzOff today + 86399)
      (localMidnightUTC tzOff (today - numDaysFromMonday today)) commits (0, 0)
    simpa using this
